import Mathlib

/-!
Shallow embedding of the SafeVault key-value facade (src/index.ts): a
namespaced, expiring wrapper over a synchronous string-keyed browser
storage object, with change listeners and an onError hook.

Modelling choices:
* The host store is an association list of string keys to stored items.
  A stored item is either a well-formed serialized envelope (the result
  of JSON.stringify on a StorageValue, which always parses back) or
  corrupt bytes (which make JSON.parse throw).  Encryption is the
  identity (no encryption option given), as in the claims.
* Time is an explicit integer parameter standing for Date.now().
* Subscriber callbacks are reified as listeners with an id and a
  predicate saying on which values the callback throws; invoking a
  callback appends to a notification log, then possibly throws.
* The onError hook appends an (operation, key) entry to an error log.
* Exceptions escaping a public operation are modelled explicitly: an
  operation that the source wraps in try/catch never surfaces one, an
  operation that does not may surface one.
-/

set_option autoImplicit false

namespace SafeVault

/-- JSON-representable values, the payloads stored in the vault. -/
inductive Json where
  | null : Json
  | bool (b : Bool) : Json
  | num (n : Int) : Json
  | str (s : String) : Json
  | arr (xs : List Json) : Json
  | obj (fs : List (String × Json)) : Json

/-- The record envelope of src/index.ts: `{ value, expiry, version?, metadata? }`.
`expiry` is an absolute timestamp in milliseconds, or `none` for the JSON
`null` (no expiry). -/
structure StorageValue where
  value : Json
  expiry : Option Int
  version : Option String
  metadata : Option Json

/-- A string persisted in the host store, at the abstraction level of the
envelope: either the serialization of a well-formed envelope (JSON.parse
recovers the envelope) or corrupt bytes (JSON.parse throws). -/
inductive Item where
  | record (d : StorageValue) : Item
  | corrupt : Item

/-- The host storage object: ordered association list of key/item pairs,
with unique keys in any store produced by the browser API. -/
abbrev Store := List (String × Item)

/-- A subscriber callback, reified: `id` identifies the callback in the
notification log, `throws v` says whether invoking it on `v` raises. -/
structure Listener where
  id : Nat
  throws : Option Json → Bool

/-- Per-instance in-memory state: the subscription registry, the log of
callback invocations (callback id, value passed), and the log of error
reports made through `handleError` (operation, key). -/
structure Inst where
  listeners : List (String × List Listener)
  notifs : List (Nat × Option Json)
  errors : List (String × String)

/-- Instance configuration: key namespace and schema version. -/
structure Cfg where
  pfx : String
  version : String

/-- Result of a non-throwing operation: return value plus updated
instance state and store. -/
structure Out (α : Type) where
  ret : α
  inst : Inst
  store : Store

/-- Result of an operation that may surface an exception to the caller. -/
inductive Res (α : Type) where
  | ok (a : α) (ins : Inst) (s : Store) : Res α
  | exn (e : String) (ins : Inst) (s : Store) : Res α

/-- The store component of a possibly-throwing result. -/
def Res.storeOf {α : Type} : Res α → Store
  | .ok _ _ s => s
  | .exn _ _ s => s

/-- Whether a possibly-throwing operation returned normally. -/
def Res.isOk {α : Type} : Res α → Bool
  | .ok _ _ _ => true
  | .exn _ _ _ => false

/-- Storage.getItem: first binding of the key, if any. -/
def getItem (k : String) : Store → Option Item
  | [] => none
  | (k1, it) :: rest => if k1 = k then some it else getItem k rest

/-- Storage.setItem: overwrite the existing binding in place, else append. -/
def setItem (k : String) (it : Item) : Store → Store
  | [] => [(k, it)]
  | (k1, it1) :: rest =>
    if k1 = k then (k, it) :: rest else (k1, it1) :: setItem k it rest

/-- Storage.removeItem: drop every binding of the key (a browser store
holds at most one). -/
def removeItem (k : String) : Store → Store
  | [] => []
  | (k1, it1) :: rest =>
    if k1 = k then removeItem k rest else (k1, it1) :: removeItem k rest

/-- JS String.prototype.startsWith: `p` is a prefix of `s`. -/
def strStartsWith (s p : String) : Bool :=
  decide (p.data = s.data.take p.data.length)

/-- JS String.prototype.substring(n): drop the first `n` characters. -/
def strDrop (n : Nat) (s : String) : String :=
  String.mk (s.data.drop n)

/-- Operation names and fixed strings passed to the error hook. -/
def opSet : String := "set"

/-- Operation name used by error reports from get. -/
def opGet : String := "get"

/-- Operation name used by error reports from import. -/
def opImport : String := "import"

/-- Pseudo-key used by error reports from import. -/
def batchKey : String := "batch"

/-- The exception value a throwing subscriber callback raises. -/
def listenerExn : String := "listener threw"

/-- getKey: the namespaced storage key `prefix + logicalKey`. -/
def getKey (cfg : Cfg) (key : String) : String :=
  cfg.pfx ++ key

/-- getAllKeys: scan the store in index order, keep keys in this
instance's namespace. -/
def getAllKeys (cfg : Cfg) (s : Store) : List String :=
  (s.map Prod.fst).filter (fun k => strStartsWith k cfg.pfx)

/-- Registered callbacks for a logical key (empty when none). -/
def lookupLs (key : String) : List (String × List Listener) → List Listener
  | [] => []
  | (k, ls) :: rest => if k = key then ls else lookupLs key rest

/-- The set of callbacks currently registered for `key`. -/
def listenersOf (ins : Inst) (key : String) : List Listener :=
  lookupLs key ins.listeners

/-- Invoke callbacks left to right; each invocation is logged, and the
first one that throws aborts the remainder with its exception. -/
def runListeners (v : Option Json) : Inst → List Listener → Inst × Option String
  | ins, [] => (ins, none)
  | ins, l :: ls =>
    let ins1 : Inst := { ins with notifs := ins.notifs ++ [(l.id, v)] }
    if l.throws v then (ins1, some listenerExn) else runListeners v ins1 ls

/-- notifyListeners: invoke every callback registered for `key` with `value`. -/
def notifyListeners (key : String) (v : Option Json) (ins : Inst) :
    Inst × Option String :=
  runListeners v ins (listenersOf ins key)

/-- handleError: report (operation, key) through the onError hook. -/
def handleError (ins : Inst) (op key : String) : Inst :=
  { ins with errors := ins.errors ++ [(op, key)] }

/-- set: build the envelope (expiry = now + ttl when a ttl is given),
serialize, write under the namespaced key, then notify subscribers.
The whole body is inside try/catch: a throwing callback is reported via
handleError and turned into a `false` return, after the write already
happened. -/
def set (cfg : Cfg) (now : Int) (key : String) (v : Json) (ttl : Option Int)
    (metadata : Option Json) (ins : Inst) (s : Store) : Out Bool :=
  let expiry := ttl.map (fun t => now + t)
  let data : StorageValue := ⟨v, expiry, some cfg.version, metadata⟩
  let s1 := setItem (getKey cfg key) (Item.record data) s
  match notifyListeners key (some v) ins with
  | (ins1, none) => ⟨true, ins1, s1⟩
  | (ins1, some _) => ⟨false, handleError ins1 opSet key, s1⟩

/-- get: absent key gives `none`; corrupt bytes are reported, the key is
deleted, result `none`; an expired record is evicted through `remove`
(which notifies subscribers with `none`) and the result is `none`; else
the stored value.  The body is inside try/catch, so a callback throwing
during eviction is caught: the error is reported and the key removed. -/
def get (cfg : Cfg) (now : Int) (key : String) (ins : Inst) (s : Store) :
    Out (Option Json) :=
  match getItem (getKey cfg key) s with
  | none => ⟨none, ins, s⟩
  | some Item.corrupt =>
    ⟨none, handleError ins opGet key, removeItem (getKey cfg key) s⟩
  | some (Item.record d) =>
    match d.expiry with
    | some e =>
      if now > e then
        let s1 := removeItem (getKey cfg key) s
        match notifyListeners key none ins with
        | (ins1, none) => ⟨none, ins1, s1⟩
        | (ins1, some _) =>
          ⟨none, handleError ins1 opGet key, removeItem (getKey cfg key) s1⟩
      else ⟨some d.value, ins, s⟩
    | none => ⟨some d.value, ins, s⟩

/-- remove: delete the namespaced key, then notify subscribers with an
absent value.  No try/catch here: a throwing callback propagates, which
the `ret` component records (`none` = normal return). -/
def remove (cfg : Cfg) (key : String) (ins : Inst) (s : Store) :
    Out (Option String) :=
  let s1 := removeItem (getKey cfg key) s
  let (ins1, e) := notifyListeners key none ins
  ⟨e, ins1, s1⟩

/-- update: read through `get`; absent gives `false` without touching the
updater; else apply the updater once and `set` the result with no ttl.
The updater call is outside any try/catch, so its exception propagates. -/
def update (cfg : Cfg) (now : Int) (key : String)
    (updater : Json → Except String Json) (ins : Inst) (s : Store) : Res Bool :=
  match get cfg now key ins s with
  | ⟨none, ins1, s1⟩ => Res.ok false ins1 s1
  | ⟨some current, ins1, s1⟩ =>
    match updater current with
    | Except.error e => Res.exn e ins1 s1
    | Except.ok updated =>
      let o := set cfg now key updated none none ins1 s1
      Res.ok o.ret o.inst o.store

/-- clear: delete every key in this instance's namespace, then discard
all subscriptions. -/
def clear (cfg : Cfg) (ins : Inst) (s : Store) : Inst × Store :=
  let ks := getAllKeys cfg s
  let s1 := ks.foldl (fun acc k => removeItem k acc) s
  ({ ins with listeners := [] }, s1)

/-- keys: namespaced keys with the prefix stripped. -/
def keys (cfg : Cfg) (s : Store) : List String :=
  (getAllKeys cfg s).map (fun k => strDrop cfg.pfx.length k)

/-- One step of cleanupExpired on one namespaced key: corrupt or expired
items are deleted and counted (the catch block swallows the parse error). -/
def cleanStep (now : Int) (acc : Nat × Store) (k : String) : Nat × Store :=
  match getItem k acc.2 with
  | none => acc
  | some Item.corrupt => (acc.1 + 1, removeItem k acc.2)
  | some (Item.record d) =>
    match d.expiry with
    | some e => if now > e then (acc.1 + 1, removeItem k acc.2) else acc
    | none => acc

/-- cleanupExpired: snapshot the namespaced keys, then delete each one
that is corrupt or expired, returning how many were deleted. -/
def cleanupExpired (cfg : Cfg) (now : Int) (s : Store) : Nat × Store :=
  (getAllKeys cfg s).foldl (cleanStep now) (0, s)

/-- Whether, in store `s` at time `now`, key `k` holds an item that is
corrupt or past its expiry (the items cleanupExpired removes). -/
def isExpiredOrCorrupt (now : Int) (s : Store) (k : String) : Bool :=
  match getItem k s with
  | none => false
  | some Item.corrupt => true
  | some (Item.record d) =>
    match d.expiry with
    | some e => decide (now > e)
    | none => false

/-- getTTL: remaining milliseconds, `none` when the key is missing,
corrupt, or has no expiry; clamped at 0 when already elapsed. -/
def getTTL (cfg : Cfg) (now : Int) (key : String) (s : Store) : Option Int :=
  match getItem (getKey cfg key) s with
  | none => none
  | some Item.corrupt => none
  | some (Item.record d) =>
    match d.expiry with
    | none => none
    | some e =>
      let remaining := e - now
      some (if remaining > 0 then remaining else 0)

/-- One iteration of the loop inside the source's `import`: `set` one
parsed key/value pair with no ttl and no metadata. -/
def importStep (cfg : Cfg) (now : Int) (acc : Inst × Store)
    (p : String × Json) : Inst × Store :=
  let o := set cfg now p.1 p.2 none none acc.1 acc.2
  (o.inst, o.store)

/-- The source's `import` method (named svImport, `import` being reserved
in Lean): `parsed` is the outcome of JSON.parse on the given text, as a
key/value mapping (`none` = the text does not parse).  Parse failure is
reported and returns `false` with nothing mutated; otherwise, unless
merging, `clear` runs first, and every pair is `set` with no ttl. -/
def svImport (cfg : Cfg) (now : Int) (parsed : Option (List (String × Json)))
    (merge : Bool) (ins : Inst) (s : Store) : Out Bool :=
  match parsed with
  | none => ⟨false, handleError ins opImport batchKey, s⟩
  | some pairs =>
    let start := if merge then (ins, s) else clear cfg ins s
    let done := pairs.foldl (importStep cfg now) start
    ⟨true, done.1, done.2⟩

/-! Basic facts about the store primitives. -/

theorem getItem_setItem_self (k : String) (it : Item) (s : Store) :
    getItem k (setItem k it s) = some it := by
  induction s with
  | nil => simp [setItem, getItem]
  | cons hd tl ih =>
    rcases hd with ⟨k2, it2⟩
    by_cases h2 : k2 = k
    · simp [setItem, h2, getItem]
    · simp [setItem, h2, getItem, ih]

theorem getItem_setItem_ne (k k1 : String) (it : Item) (s : Store)
    (h : k1 ≠ k) : getItem k1 (setItem k it s) = getItem k1 s := by
  induction s with
  | nil => simp [setItem, getItem, Ne.symm h]
  | cons hd tl ih =>
    rcases hd with ⟨k2, it2⟩
    by_cases h2 : k2 = k
    · subst h2
      simp [setItem, getItem, Ne.symm h]
    · simp only [setItem, if_neg h2, getItem]
      by_cases h1 : k2 = k1 <;> simp [h1, ih]

theorem getItem_removeItem (k k1 : String) (s : Store) :
    getItem k1 (removeItem k s) = if k1 = k then none else getItem k1 s := by
  induction s with
  | nil => simp [removeItem, getItem]
  | cons hd tl ih =>
    rcases hd with ⟨k2, it2⟩
    by_cases h2 : k2 = k
    · subst h2
      by_cases h1 : k1 = k2
      · subst h1; simp [removeItem, getItem, ih]
      · simp [removeItem, getItem, h1, ih, Ne.symm h1]
    · by_cases h1 : k2 = k1
      · subst h1
        simp [removeItem, getItem, h2]
      · by_cases hk : k1 = k
        · subst hk
          simp [removeItem, getItem, h1, h2, ih]
        · simp [removeItem, getItem, h1, h2, hk, ih]

theorem getItem_eq_none_iff (k : String) (s : Store) :
    getItem k s = none ↔ k ∉ s.map Prod.fst := by
  induction s with
  | nil => simp [getItem]
  | cons hd tl ih =>
    rcases hd with ⟨k2, it2⟩
    by_cases h2 : k2 = k
    · subst h2; simp [getItem]
    · simp [getItem, h2, ih, Ne.symm h2]

theorem getItem_foldRemove (ks : List String) (s : Store) (k : String) :
    getItem k (ks.foldl (fun acc k1 => removeItem k1 acc) s)
      = if k ∈ ks then none else getItem k s := by
  induction ks generalizing s with
  | nil => simp
  | cons k0 tl ih =>
    by_cases h0 : k = k0
    · subst h0
      simp only [List.foldl_cons, ih, getItem_removeItem, if_pos rfl,
        List.mem_cons, true_or, if_pos]
      split <;> rfl
    · simp [ih, getItem_removeItem, h0]

/-! Facts about listener invocation. -/

theorem runListeners_errors (v : Option Json) (ins : Inst) (ls : List Listener) :
    (runListeners v ins ls).1.errors = ins.errors := by
  induction ls generalizing ins with
  | nil => rfl
  | cons l tl ih =>
    by_cases h : l.throws v <;> simp [runListeners, h, ih]

theorem runListeners_noThrow (v : Option Json) (ins : Inst) (ls : List Listener)
    (h : ∀ l ∈ ls, l.throws v = false) :
    runListeners v ins ls
      = ({ ins with notifs := ins.notifs ++ ls.map (fun l => (l.id, v)) }, none) := by
  induction ls generalizing ins with
  | nil => simp [runListeners]
  | cons l tl ih =>
    have hl : l.throws v = false := h l (List.mem_cons_self l tl)
    simp only [runListeners, hl, Bool.false_eq_true, if_false]
    rw [ih _ (fun x hx => h x (List.mem_cons_of_mem l hx))]
    simp

theorem runListeners_throw (v : Option Json) (ins : Inst) (ls : List Listener)
    (h : ∃ l ∈ ls, l.throws v = true) :
    (runListeners v ins ls).2.isSome = true := by
  induction ls generalizing ins with
  | nil => rcases h with ⟨l, hl, _⟩; cases hl
  | cons l tl ih =>
    by_cases hl : l.throws v
    · simp [runListeners, hl]
    · rcases h with ⟨l1, hmem, hthrow⟩
      rcases List.mem_cons.mp hmem with he | hm
      · subst he; exact absurd hthrow hl
      · simp only [runListeners, hl, if_false]
        exact ih _ ⟨l1, hm, hthrow⟩

/-- The store written by set, independent of listener behavior. -/
theorem set_store (cfg : Cfg) (now : Int) (key : String) (v : Json)
    (ttl : Option Int) (md : Option Json) (ins : Inst) (s : Store) :
    (set cfg now key v ttl md ins s).store
      = setItem (getKey cfg key)
          (Item.record ⟨v, ttl.map (fun t => now + t), some cfg.version, md⟩) s := by
  unfold set
  rcases h : notifyListeners key (some v) ins with ⟨ins1, e⟩
  cases e <;> simp [h]

/-! Facts about the prefix test. -/

theorem strStartsWith_data (k p : String) (h : strStartsWith k p = true) :
    k.data = p.data ++ k.data.drop p.data.length := by
  unfold strStartsWith at h
  have hp : p.data = k.data.take p.data.length := of_decide_eq_true h
  conv_lhs => rw [← List.take_append_drop p.data.length k.data]
  rw [← hp]

theorem strStartsWith_of_le (k p q : String)
    (hp : strStartsWith k p = true) (hq : strStartsWith k q = true)
    (hle : p.data.length ≤ q.data.length) : strStartsWith q p = true := by
  unfold strStartsWith at hp hq ⊢
  have hp1 : p.data = k.data.take p.data.length := of_decide_eq_true hp
  have hq1 : q.data = k.data.take q.data.length := of_decide_eq_true hq
  apply decide_eq_true
  rw [hq1, List.take_take, Nat.min_eq_left hle, ← hp1]

/-! Concrete fixtures used by the witness theorems. -/

/-- Default configuration of the source: prefix sv underscore, version 1.0.0. -/
def cfg0 : Cfg := ⟨"sv_", "1.0.0"⟩

/-- Fresh instance state: no subscriptions, empty logs. -/
def ins0 : Inst := ⟨[], [], []⟩

/-- A sample logical key. -/
def keyTok : String := "token"

/-- A sample stored value. -/
def valAbc : Json := Json.str "abc123"

/-- Claim C1: for every key, value, and TTL T > 0, get immediately after
set(key, value, T) returns the value; once the clock has advanced past the
expiry (now > expiry), get(key) returns absent and the namespaced key
(prefix + key) is removed from the underlying host store. -/
theorem claim_C1_ttl_set_get (cfg : Cfg) (now now2 : Int) (key : String)
    (v : Json) (T : Int) (md : Option Json) (ins : Inst) (s : Store)
    (hT : 0 < T) :
    (get cfg now key (set cfg now key v (some T) md ins s).inst
        (set cfg now key v (some T) md ins s).store).ret = some v
    ∧ (now + T < now2 →
        (get cfg now2 key (set cfg now key v (some T) md ins s).inst
            (set cfg now key v (some T) md ins s).store).ret = none
        ∧ getItem (getKey cfg key)
            (get cfg now2 key (set cfg now key v (some T) md ins s).inst
                (set cfg now key v (some T) md ins s).store).store = none) := by
  have hs := set_store cfg now key v (some T) md ins s
  constructor
  · have hlt : ¬ now > now + T := by omega
    simp [get, hs, getItem_setItem_self, hlt]
  · intro h2
    rcases hn : notifyListeners key none (set cfg now key v (some T) md ins s).inst
      with ⟨ins1, e⟩
    cases e <;>
      simp [get, hs, getItem_setItem_self, h2, hn, getItem_removeItem]

/-- Witness for C1 at the spec scenario: set at t = 0 with TTL 1000, read
back at t = 0, then read at t = 1500 after expiry. -/
theorem claim_C1_ttl_set_get_witness :
    (get cfg0 0 keyTok (set cfg0 0 keyTok valAbc (some 1000) none ins0 []).inst
        (set cfg0 0 keyTok valAbc (some 1000) none ins0 []).store).ret = some valAbc
    ∧ (get cfg0 1500 keyTok (set cfg0 0 keyTok valAbc (some 1000) none ins0 []).inst
        (set cfg0 0 keyTok valAbc (some 1000) none ins0 []).store).ret = none
    ∧ getItem (getKey cfg0 keyTok)
        (get cfg0 1500 keyTok (set cfg0 0 keyTok valAbc (some 1000) none ins0 []).inst
            (set cfg0 0 keyTok valAbc (some 1000) none ins0 []).store).store = none := by
  have h := claim_C1_ttl_set_get cfg0 0 1500 keyTok valAbc 1000 none ins0 []
    (by decide)
  exact ⟨h.1, (h.2 (by decide)).1, (h.2 (by decide)).2⟩

/-- Claim C2: for every key and JSON-representable value, with identity
encode/decode, set with no TTL followed immediately by get returns the
original value unchanged, and getTTL returns absent. -/
theorem claim_C2_no_ttl_roundtrip (cfg : Cfg) (now : Int) (key : String)
    (v : Json) (md : Option Json) (ins : Inst) (s : Store) :
    (get cfg now key (set cfg now key v none md ins s).inst
        (set cfg now key v none md ins s).store).ret = some v
    ∧ getTTL cfg now key (set cfg now key v none md ins s).store = none := by
  have hs := set_store cfg now key v none md ins s
  constructor
  · simp [get, hs, getItem_setItem_self]
  · simp [getTTL, hs, getItem_setItem_self]

/-- Claim C4: a key holding undecodable bytes is deleted by get, the error
is reported through the onError hook, and the result is absent; a second
get of the same key is absent with no further report and no state change. -/
theorem claim_C4_corrupt_self_healing (cfg : Cfg) (now : Int) (key : String)
    (ins : Inst) (s : Store)
    (hc : getItem (getKey cfg key) s = some Item.corrupt) :
    (get cfg now key ins s).ret = none
    ∧ (get cfg now key ins s).inst.errors = ins.errors ++ [(opGet, key)]
    ∧ getItem (getKey cfg key) (get cfg now key ins s).store = none
    ∧ get cfg now key (get cfg now key ins s).inst (get cfg now key ins s).store
        = ⟨none, (get cfg now key ins s).inst, (get cfg now key ins s).store⟩ := by
  refine ⟨?_, ?_, ?_, ?_⟩ <;>
    simp [get, hc, handleError, getItem_removeItem]

/-- Witness for C4: one corrupt record under the namespaced key. -/
theorem claim_C4_corrupt_self_healing_witness :
    (get cfg0 0 keyTok ins0 [(getKey cfg0 keyTok, Item.corrupt)]).ret = none
    ∧ (get cfg0 0 keyTok ins0 [(getKey cfg0 keyTok, Item.corrupt)]).inst.errors
        = ins0.errors ++ [(opGet, keyTok)]
    ∧ getItem (getKey cfg0 keyTok)
        (get cfg0 0 keyTok ins0 [(getKey cfg0 keyTok, Item.corrupt)]).store = none := by
  have h := claim_C4_corrupt_self_healing cfg0 0 keyTok ins0
    [(getKey cfg0 keyTok, Item.corrupt)] (by simp [getItem])
  exact ⟨h.1, h.2.1, h.2.2.1⟩

/-- A live record with no expiry, for witnesses. -/
def dRec : StorageValue := ⟨Json.num 1, none, none, none⟩

/-- A store holding one live record under the namespaced sample key. -/
def sLive : Store := [(getKey cfg0 keyTok, Item.record dRec)]

/-- Claim C5: update on an absent key returns failure, does not call the
updater (the result is the same for every updater), and leaves storage
unmodified; on a present, non-expired, decodable key it applies the
updater to the current value exactly once and stores the result with no
TTL, so the stored record has no expiry whatever the prior TTL was. -/
theorem claim_C5_update_semantics (cfg : Cfg) (now : Int) (key : String)
    (ins : Inst) (s : Store) :
    (getItem (getKey cfg key) s = none →
      ∀ f : Json → Except String Json,
        update cfg now key f ins s = Res.ok false ins s)
    ∧ (∀ d : StorageValue, getItem (getKey cfg key) s = some (Item.record d) →
        (∀ e, d.expiry = some e → ¬ now > e) →
        ∀ g : Json → Json,
          (update cfg now key (fun x => Except.ok (g x)) ins s).isOk = true
          ∧ (update cfg now key (fun x => Except.ok (g x)) ins s).storeOf
              = setItem (getKey cfg key)
                  (Item.record ⟨g d.value, none, some cfg.version, none⟩) s) := by
  constructor
  · intro h f
    simp [update, get, h]
  · intro d hd hexp g
    have hget : get cfg now key ins s = ⟨some d.value, ins, s⟩ := by
      rcases he : d.expiry with _ | e
      · simp [get, hd, he]
      · have hne := hexp e he
        simp [get, hd, he, hne]
    have hstore := set_store cfg now key (g d.value) none none ins s
    constructor
    · simp [update, hget, Res.isOk]
    · simp [update, hget, Res.storeOf, hstore]

/-- Witness for C5: an absent key leaves everything unchanged; a present
record is rewritten through the updater with no expiry. -/
theorem claim_C5_update_semantics_witness :
    update cfg0 0 keyTok (fun x => Except.ok x) ins0 [] = Res.ok false ins0 []
    ∧ (update cfg0 0 keyTok (fun x => Except.ok x) ins0 sLive).isOk = true := by
  refine ⟨(claim_C5_update_semantics cfg0 0 keyTok ins0 []).1 rfl _, ?_⟩
  exact ((claim_C5_update_semantics cfg0 0 keyTok ins0 sLive).2 dRec
    (by simp [sLive, getItem]) (by intro e he; simp [dRec] at he) (fun x => x)).1

/-- Claim C9: when get evicts an expired record it goes through remove, so
the key's subscribers are notified with an absent value; when get deletes
a corrupt record it removes the underlying key directly and subscribers
are not notified. -/
theorem claim_C9_eviction_notification (cfg : Cfg) (now : Int) (key : String)
    (ins : Inst) (s : Store) :
    (∀ (d : StorageValue) (e : Int),
      getItem (getKey cfg key) s = some (Item.record d) →
      d.expiry = some e → now > e →
      (∀ l ∈ listenersOf ins key, l.throws none = false) →
      (get cfg now key ins s).ret = none
      ∧ (get cfg now key ins s).inst.notifs
          = ins.notifs ++ (listenersOf ins key).map (fun l => (l.id, none))
      ∧ (get cfg now key ins s).inst.errors = ins.errors
      ∧ getItem (getKey cfg key) (get cfg now key ins s).store = none)
    ∧ (getItem (getKey cfg key) s = some Item.corrupt →
        (get cfg now key ins s).ret = none
        ∧ (get cfg now key ins s).inst.notifs = ins.notifs
        ∧ getItem (getKey cfg key) (get cfg now key ins s).store = none) := by
  constructor
  · intro d e hd he hexp hnt
    have hrun := runListeners_noThrow none ins (listenersOf ins key) hnt
    refine ⟨?_, ?_, ?_, ?_⟩ <;>
      simp [get, hd, he, hexp, notifyListeners, hrun, getItem_removeItem]
  · intro hc
    refine ⟨?_, ?_, ?_⟩ <;>
      simp [get, hc, handleError, getItem_removeItem]

/-- A subscriber whose callback never throws, with id 3. -/
def okL : Listener := ⟨3, fun _ => false⟩

/-- Instance state with the benign subscriber registered on the sample key. -/
def insOk : Inst := ⟨[(keyTok, [okL])], [], []⟩

/-- An expired record (expiry 10). -/
def dExp : StorageValue := ⟨Json.num 5, some 10, none, none⟩

/-- Store holding the expired record under the namespaced sample key. -/
def sExp : Store := [(getKey cfg0 keyTok, Item.record dExp)]

/-- Witness for C9: reading the expired record at t = 99 notifies the
subscriber with an absent value; reading a corrupt record notifies nobody. -/
theorem claim_C9_eviction_notification_witness :
    (get cfg0 99 keyTok insOk sExp).ret = none
    ∧ (get cfg0 99 keyTok insOk sExp).inst.notifs = insOk.notifs ++ [(3, none)]
    ∧ (get cfg0 0 keyTok ins0 [(getKey cfg0 keyTok, Item.corrupt)]).inst.notifs
        = ins0.notifs := by
  have ha := (claim_C9_eviction_notification cfg0 99 keyTok insOk sExp).1 dExp 10
    (by simp [sExp, getItem]) rfl (by decide)
    (by intro l hl
        simp [insOk, listenersOf, lookupLs] at hl
        subst hl
        rfl)
  have hb := (claim_C9_eviction_notification cfg0 0 keyTok ins0
    [(getKey cfg0 keyTok, Item.corrupt)]).2 (by simp [getItem])
  refine ⟨ha.1, ?_, hb.2.1⟩
  rw [ha.2.1]
  simp [insOk, listenersOf, lookupLs, okL]

/-- Claim C10: a subscriber callback that throws during set is caught: set
reports the error via onError and returns failure, while the value has
already been written and remains stored. -/
theorem claim_C10_set_throwing_listener (cfg : Cfg) (now : Int) (key : String)
    (v : Json) (ttl : Option Int) (md : Option Json) (ins : Inst) (s : Store)
    (h : ∃ l ∈ listenersOf ins key, l.throws (some v) = true) :
    (set cfg now key v ttl md ins s).ret = false
    ∧ (set cfg now key v ttl md ins s).inst.errors = ins.errors ++ [(opSet, key)]
    ∧ getItem (getKey cfg key) (set cfg now key v ttl md ins s).store
        = some (Item.record ⟨v, ttl.map (fun t => now + t), some cfg.version, md⟩) := by
  have hthrow := runListeners_throw (some v) ins (listenersOf ins key) h
  have herr := runListeners_errors (some v) ins (listenersOf ins key)
  rcases hn : runListeners (some v) ins (listenersOf ins key) with ⟨ins1, e⟩
  rw [hn] at hthrow herr
  simp only at hthrow herr
  cases e with
  | none => simp at hthrow
  | some ex =>
    refine ⟨?_, ?_, ?_⟩ <;>
      simp [set, notifyListeners, hn, handleError, herr, getItem_setItem_self]

/-- A subscriber whose callback always throws, with id 7. -/
def badL : Listener := ⟨7, fun _ => true⟩

/-- Instance state with the throwing subscriber registered on the sample key. -/
def insL : Inst := ⟨[(keyTok, [badL])], [], []⟩

/-- Witness for C10: setting the sample key with the throwing subscriber
returns failure, reports the error, and the value is stored anyway. -/
theorem claim_C10_set_throwing_listener_witness :
    (set cfg0 0 keyTok valAbc none none insL []).ret = false
    ∧ (set cfg0 0 keyTok valAbc none none insL []).inst.errors
        = insL.errors ++ [(opSet, keyTok)]
    ∧ getItem (getKey cfg0 keyTok) (set cfg0 0 keyTok valAbc none none insL []).store
        = some (Item.record ⟨valAbc, none, some cfg0.version, none⟩) := by
  have h := claim_C10_set_throwing_listener cfg0 0 keyTok valAbc none none insL []
    ⟨badL, by simp [insL, listenersOf, lookupLs], rfl⟩
  exact ⟨h.1, h.2.1, h.2.2⟩

/-- The exception message a concrete throwing updater raises. -/
def boomMsg : String := "boom"

/-- Counterexample to C8 as stated: update is a public operation, yet with
an updater that throws on a present key the exception propagates to the
caller instead of the operation returning normally. -/
theorem claim_C8_counterexample :
    (update cfg0 0 keyTok (fun _ => Except.error boomMsg) ins0 sLive).isOk
      = false := by
  decide

/-- Claim C8 (amended): public operations whose body the source wraps in
try/catch — set, get, import among them — return normally for every input,
set converting a subscriber-callback exception into a failure return
reported via onError; but update propagates an exception thrown by the
updater function, and remove (hence removeMany) propagates an exception
thrown by a subscriber callback. -/
theorem claim_C8_amended_exception_boundary (cfg : Cfg) (now : Int)
    (key : String) (v : Json) (ttl : Option Int) (md : Option Json)
    (ins : Inst) (s : Store) :
    (∀ (d : StorageValue) (msg : String),
      getItem (getKey cfg key) s = some (Item.record d) → d.expiry = none →
      update cfg now key (fun _ => Except.error msg) ins s = Res.exn msg ins s)
    ∧ ((∃ l ∈ listenersOf ins key, l.throws none = true) →
        ((remove cfg key ins s).ret).isSome = true)
    ∧ ((∃ l ∈ listenersOf ins key, l.throws (some v) = true) →
        (set cfg now key v ttl md ins s).ret = false
        ∧ (set cfg now key v ttl md ins s).inst.errors
            = ins.errors ++ [(opSet, key)]) := by
  refine ⟨?_, ?_, ?_⟩
  · intro d msg hd he
    simp [update, get, hd, he]
  · intro h
    have hthrow := runListeners_throw none ins (listenersOf ins key) h
    rcases hn : runListeners none ins (listenersOf ins key) with ⟨ins1, e⟩
    rw [hn] at hthrow
    simp only at hthrow
    simp [remove, notifyListeners, hn, hthrow]
  · intro h
    have hthrow := runListeners_throw (some v) ins (listenersOf ins key) h
    have herr := runListeners_errors (some v) ins (listenersOf ins key)
    rcases hn : runListeners (some v) ins (listenersOf ins key) with ⟨ins1, e⟩
    rw [hn] at hthrow herr
    simp only at hthrow herr
    cases e with
    | none => simp at hthrow
    | some ex =>
      constructor <;> simp [set, notifyListeners, hn, handleError, herr]

/-- Witness for the amended C8: the updater exception propagates from
update on a live key; remove with a throwing subscriber propagates; set
with the same subscriber returns failure normally. -/
theorem claim_C8_amended_exception_boundary_witness :
    update cfg0 0 keyTok (fun _ => Except.error boomMsg) ins0 sLive
      = Res.exn boomMsg ins0 sLive
    ∧ ((remove cfg0 keyTok insL []).ret).isSome = true
    ∧ (set cfg0 0 keyTok valAbc none none insL []).ret = false := by
  refine ⟨?_, ?_, ?_⟩
  · exact (claim_C8_amended_exception_boundary cfg0 0 keyTok valAbc none none
      ins0 sLive).1 dRec boomMsg (by simp [sLive, getItem]) rfl
  · exact (claim_C8_amended_exception_boundary cfg0 0 keyTok valAbc none none
      insL []).2.1 ⟨badL, by simp [insL, listenersOf, lookupLs], rfl⟩
  · exact ((claim_C8_amended_exception_boundary cfg0 0 keyTok valAbc none none
      insL []).2.2 ⟨badL, by simp [insL, listenersOf, lookupLs], rfl⟩).1

/-- Vault configuration with the one-character prefix a. -/
def cfgA : Cfg := ⟨"a", "1.0.0"⟩

/-- Vault configuration with prefix ab, which extends cfgA's prefix. -/
def cfgB : Cfg := ⟨"ab", "1.0.0"⟩

/-- A stored key that belongs to both cfgA and cfgB. -/
def kAB : String := "abx"

/-- A shared host store holding that key. -/
def sAB : Store := [(kAB, Item.record dRec)]

/-- Counterexample to C3 as stated: the prefixes a and ab are different,
yet the stored key abx belongs to both instances, and clear on the
a-instance deletes the ab-instance's entry. -/
theorem claim_C3_counterexample :
    cfgA.pfx ≠ cfgB.pfx
    ∧ strStartsWith kAB cfgA.pfx = true
    ∧ strStartsWith kAB cfgB.pfx = true
    ∧ getItem kAB (clear cfgA ins0 sAB).2 = none := by
  refine ⟨by decide, by decide, by decide, ?_⟩
  rfl

/-- Claim C3 (amended): for every pair of vault instances over the same
underlying store whose prefixes are such that neither is a prefix of the
other, the sets of stored entries belonging to the two instances are
disjoint, and clear on one instance leaves every entry of the other
intact. -/
theorem claim_C3_amended_prefix_isolation (cfga cfgb : Cfg) (ins : Inst)
    (s : Store)
    (hab : strStartsWith cfgb.pfx cfga.pfx = false)
    (hba : strStartsWith cfga.pfx cfgb.pfx = false) :
    (∀ k : String,
      ¬(strStartsWith k cfga.pfx = true ∧ strStartsWith k cfgb.pfx = true))
    ∧ (∀ k : String, strStartsWith k cfgb.pfx = true →
        getItem k (clear cfga ins s).2 = getItem k s) := by
  have hdisj : ∀ k : String,
      ¬(strStartsWith k cfga.pfx = true ∧ strStartsWith k cfgb.pfx = true) := by
    intro k ⟨h1, h2⟩
    rcases Nat.le_total cfga.pfx.data.length cfgb.pfx.data.length with hle | hle
    · have := strStartsWith_of_le k cfga.pfx cfgb.pfx h1 h2 hle
      rw [hab] at this
      cases this
    · have := strStartsWith_of_le k cfgb.pfx cfga.pfx h2 h1 hle
      rw [hba] at this
      cases this
  refine ⟨hdisj, ?_⟩
  intro k hk
  have hnot : k ∉ getAllKeys cfga s := by
    intro hmem
    rw [getAllKeys] at hmem
    exact hdisj k ⟨(List.mem_filter.mp hmem).2, hk⟩
  simp [clear, getItem_foldRemove, hnot]

/-- Configuration for the spec's concrete scenario, prefix a underscore. -/
def cfgA2 : Cfg := ⟨"a_", "1.0.0"⟩

/-- Configuration for the spec's concrete scenario, prefix b underscore. -/
def cfgB2 : Cfg := ⟨"b_", "1.0.0"⟩

/-- A key of instance A in the shared store. -/
def keyAX : String := "a_x"

/-- A key of instance B in the shared store. -/
def keyBY : String := "b_y"

/-- The shared store of the concrete scenario. -/
def sW : Store := [(keyAX, Item.record dRec), (keyBY, Item.record dRec)]

/-- Witness for the amended C3 on the spec scenario: clear on the
a-underscore instance leaves the b-underscore instance's entry intact. -/
theorem claim_C3_amended_prefix_isolation_witness :
    ¬(strStartsWith keyAX cfgA2.pfx = true ∧ strStartsWith keyAX cfgB2.pfx = true)
    ∧ getItem keyBY (clear cfgA2 ins0 sW).2 = getItem keyBY sW := by
  have h := claim_C3_amended_prefix_isolation cfgA2 cfgB2 ins0 sW
    (by decide) (by decide)
  exact ⟨h.1 keyAX, h.2 keyBY (by decide)⟩

/-! Facts about the import loop. -/

theorem getKey_inj (cfg : Cfg) (a b : String) (h : getKey cfg a = getKey cfg b) :
    a = b := by
  unfold getKey at h
  have hd : cfg.pfx.data ++ a.data = cfg.pfx.data ++ b.data := by
    have := congrArg String.data h
    simpa [String.data_append] using this
  have hab : a.data = b.data := List.append_cancel_left hd
  exact String.ext hab

theorem importStep_store (cfg : Cfg) (now : Int) (acc : Inst × Store)
    (p : String × Json) :
    (importStep cfg now acc p).2
      = setItem (getKey cfg p.1)
          (Item.record ⟨p.2, none, some cfg.version, none⟩) acc.2 := by
  unfold importStep
  have hs := set_store cfg now p.1 p.2 none none acc.1 acc.2
  simpa using hs

theorem importFold_store (cfg : Cfg) (now : Int) (pairs : List (String × Json)) :
    ∀ acc : Inst × Store,
      (pairs.foldl (importStep cfg now) acc).2
        = pairs.foldl
            (fun s2 p => setItem (getKey cfg p.1)
              (Item.record ⟨p.2, none, some cfg.version, none⟩) s2) acc.2 := by
  induction pairs with
  | nil => intro acc; rfl
  | cons p tl ih =>
    intro acc
    rw [List.foldl_cons, List.foldl_cons, ih, importStep_store]

theorem setFold_notMem (cfg : Cfg) (pairs : List (String × Json)) :
    ∀ (s : Store) (k : String), (∀ p ∈ pairs, getKey cfg p.1 ≠ k) →
      getItem k (pairs.foldl
          (fun s2 p => setItem (getKey cfg p.1)
            (Item.record ⟨p.2, none, some cfg.version, none⟩) s2) s)
        = getItem k s := by
  induction pairs with
  | nil => intro s k _; rfl
  | cons p tl ih =>
    intro s k h
    rw [List.foldl_cons, ih _ k (fun q hq => h q (List.mem_cons_of_mem p hq)),
      getItem_setItem_ne]
    exact fun he => h p (List.mem_cons_self p tl) he.symm

theorem setFold_stores (cfg : Cfg) (pairs : List (String × Json)) :
    ∀ s : Store, (pairs.map Prod.fst).Nodup →
      ∀ p ∈ pairs,
        getItem (getKey cfg p.1) (pairs.foldl
            (fun s2 q => setItem (getKey cfg q.1)
              (Item.record ⟨q.2, none, some cfg.version, none⟩) s2) s)
          = some (Item.record ⟨p.2, none, some cfg.version, none⟩) := by
  induction pairs with
  | nil => intro s _ p h; simp at h
  | cons q tl ih =>
    intro s hnd p hmem
    rw [List.map_cons, List.nodup_cons] at hnd
    rcases List.mem_cons.mp hmem with he | hm
    · subst he
      have hnt : ∀ r ∈ tl, getKey cfg r.1 ≠ getKey cfg p.1 := by
        intro r hr he
        exact hnd.1 (List.mem_map.mpr ⟨r, hr, getKey_inj cfg r.1 p.1 he⟩)
      rw [List.foldl_cons, setFold_notMem cfg tl _ _ hnt, getItem_setItem_self]
    · rw [List.foldl_cons]
      exact ih _ hnd.2 p hm

/-- clear leaves no key of the instance's own namespace in the store. -/
theorem clear_prefixed (cfg : Cfg) (ins : Inst) (s : Store) (k : String)
    (hk : strStartsWith k cfg.pfx = true) :
    getItem k (clear cfg ins s).2 = none := by
  unfold clear
  simp only
  rw [getItem_foldRemove]
  by_cases hmem : k ∈ getAllKeys cfg s
  · rw [if_pos hmem]
  · rw [if_neg hmem, getItem_eq_none_iff]
    intro hmf
    exact hmem (by
      rw [getAllKeys]
      exact List.mem_filter.mpr ⟨hmf, hk⟩)

/-- Claim C7: import of unparseable text reports the error, returns
failure and leaves storage unchanged; import of parsed text returns
success, clears the namespace first when merge is false, and stores every
parsed key/value pair — the pair's own value — as a permanent record (no
expiry).  The parsed mapping has distinct keys, as JSON.parse collapses
duplicate object keys before Object.entries enumerates them. -/
theorem claim_C7_import_semantics (cfg : Cfg) (now : Int)
    (pairs : List (String × Json)) (merge : Bool) (ins : Inst) (s : Store) :
    (svImport cfg now none merge ins s
        = ⟨false, handleError ins opImport batchKey, s⟩)
    ∧ (svImport cfg now (some pairs) merge ins s).ret = true
    ∧ ((pairs.map Prod.fst).Nodup → ∀ p ∈ pairs,
        getItem (getKey cfg p.1) (svImport cfg now (some pairs) merge ins s).store
          = some (Item.record ⟨p.2, none, some cfg.version, none⟩))
    ∧ (merge = false → ∀ k, strStartsWith k cfg.pfx = true →
        (∀ p ∈ pairs, getKey cfg p.1 ≠ k) →
        getItem k (svImport cfg now (some pairs) merge ins s).store = none) := by
  have hs : (svImport cfg now (some pairs) merge ins s).store
      = (pairs.foldl (importStep cfg now)
          (if merge then (ins, s) else clear cfg ins s)).2 := rfl
  refine ⟨rfl, rfl, ?_, ?_⟩
  · intro hnd p hmem
    rw [hs, importFold_store]
    exact setFold_stores cfg pairs _ hnd p hmem
  · intro hm k hk hne
    subst hm
    rw [hs, importFold_store, setFold_notMem cfg pairs _ k hne]
    simp only [if_neg Bool.false_ne_true]
    exact clear_prefixed cfg ins s k hk

/-- An already-present namespaced key not touched by the import. -/
def keyOld : String := "sv_old"

/-- A store holding only that key. -/
def sOld : Store := [(keyOld, Item.record dRec)]

/-- Witness for C7: importing the single pair (token, 3) with merge false
into a store holding sv_old stores the value 3 under token permanently
and clears sv_old. -/
theorem claim_C7_import_semantics_witness :
    getItem (getKey cfg0 keyTok)
        (svImport cfg0 0 (some [(keyTok, Json.num 3)]) false ins0 sOld).store
      = some (Item.record ⟨Json.num 3, none, some cfg0.version, none⟩)
    ∧ getItem keyOld
        (svImport cfg0 0 (some [(keyTok, Json.num 3)]) false ins0 sOld).store
      = none := by
  have h := claim_C7_import_semantics cfg0 0 [(keyTok, Json.num 3)] false ins0 sOld
  refine ⟨h.2.2.1 (by decide) (keyTok, Json.num 3) (List.mem_cons_self _ _), ?_⟩
  refine h.2.2.2 rfl keyOld (by decide) ?_
  intro p hp
  rcases List.mem_singleton.mp hp with rfl
  decide

/-! Facts about the cleanup pass. -/

theorem cleanStep_eq (now : Int) (c : Nat) (s : Store) (k : String) :
    cleanStep now (c, s) k
      = if isExpiredOrCorrupt now s k = true then (c + 1, removeItem k s)
        else (c, s) := by
  unfold cleanStep isExpiredOrCorrupt
  rcases h : getItem k s with _ | it
  · simp [h]
  · cases it with
    | corrupt => simp [h]
    | record d =>
      rcases he : d.expiry with _ | e
      · simp [h, he]
      · by_cases hlt : now > e <;> simp [h, he, hlt]

theorem isExpiredOrCorrupt_removeItem (now : Int) (s : Store) (k0 k1 : String)
    (hne : k1 ≠ k0) :
    isExpiredOrCorrupt now (removeItem k0 s) k1 = isExpiredOrCorrupt now s k1 := by
  unfold isExpiredOrCorrupt
  rw [getItem_removeItem, if_neg hne]

theorem cleanFold (now : Int) (ks : List String) :
    ks.Nodup → ∀ (s : Store) (c : Nat),
      (ks.foldl (cleanStep now) (c, s)).1
          = c + ks.countP (fun k => isExpiredOrCorrupt now s k)
      ∧ ∀ k1, getItem k1 (ks.foldl (cleanStep now) (c, s)).2
          = if k1 ∈ ks ∧ isExpiredOrCorrupt now s k1 = true
            then none else getItem k1 s := by
  induction ks with
  | nil => intro _ s c; simp
  | cons k0 tl ih =>
    intro hnd s c
    have hk0 : k0 ∉ tl := (List.nodup_cons.mp hnd).1
    have hndtl : tl.Nodup := (List.nodup_cons.mp hnd).2
    by_cases hb : isExpiredOrCorrupt now s k0 = true
    · have hstep : cleanStep now (c, s) k0 = (c + 1, removeItem k0 s) := by
        rw [cleanStep_eq, if_pos hb]
      have hih := ih hndtl (removeItem k0 s) (c + 1)
      have hcnt : tl.countP (fun k => isExpiredOrCorrupt now (removeItem k0 s) k)
          = tl.countP (fun k => isExpiredOrCorrupt now s k) := by
        apply List.countP_congr
        intro a ha
        rw [isExpiredOrCorrupt_removeItem now s k0 a
          (fun he => hk0 (he ▸ ha))]
      constructor
      · rw [List.foldl_cons, hstep, hih.1, hcnt, List.countP_cons]
        simp only [hb, if_pos]
        omega
      · intro k1
        rw [List.foldl_cons, hstep, hih.2 k1]
        by_cases h1 : k1 = k0
        · subst h1
          have hb1 : isExpiredOrCorrupt now (removeItem k1 s) k1 = false := by
            unfold isExpiredOrCorrupt
            rw [getItem_removeItem, if_pos rfl]
          have hcond1 : ¬(k1 ∈ tl ∧ isExpiredOrCorrupt now (removeItem k1 s) k1 = true) := by
            rw [hb1]
            simp
          rw [if_neg hcond1, getItem_removeItem, if_pos rfl,
            if_pos ⟨List.mem_cons_self k1 tl, hb⟩]
        · rw [isExpiredOrCorrupt_removeItem now s k0 k1 h1,
            getItem_removeItem, if_neg h1]
          simp [List.mem_cons, h1]
    · have hstep : cleanStep now (c, s) k0 = (c, s) := by
        rw [cleanStep_eq, if_neg hb]
      have hih := ih hndtl s c
      constructor
      · rw [List.foldl_cons, hstep, hih.1, List.countP_cons]
        simp [hb]
      · intro k1
        rw [List.foldl_cons, hstep, hih.2 k1]
        by_cases h1 : k1 = k0
        · subst h1
          simp [hk0, hb]
        · simp [List.mem_cons, h1]

/-- Keys of the same namespace that strip to the same logical key are equal. -/
theorem strip_inj (p k k2 : String)
    (hk : strStartsWith k p = true) (h2 : strStartsWith k2 p = true)
    (he : strDrop p.length k = strDrop p.length k2) : k = k2 := by
  have hd1 := strStartsWith_data k p hk
  have hd2 := strStartsWith_data k2 p h2
  have hlen : p.length = p.data.length := by
    cases p
    rfl
  rw [hlen] at he
  have hdrop : k.data.drop p.data.length = k2.data.drop p.data.length :=
    congrArg String.data he
  apply String.ext
  rw [hd1, hd2, hdrop]

/-- Claim C6: cleanupExpired returns the number of namespaced keys that
were expired or undecodable at call time, deletes exactly those keys
(every other binding is untouched), and afterwards keys() contains none
of the deleted logical keys. -/
theorem claim_C6_cleanup_expired (cfg : Cfg) (now : Int) (s : Store)
    (hnd : (s.map Prod.fst).Nodup) :
    (cleanupExpired cfg now s).1
        = (getAllKeys cfg s).countP (fun k => isExpiredOrCorrupt now s k)
    ∧ (∀ k, getItem k (cleanupExpired cfg now s).2
        = if k ∈ getAllKeys cfg s ∧ isExpiredOrCorrupt now s k = true
          then none else getItem k s)
    ∧ (∀ k, k ∈ getAllKeys cfg s → isExpiredOrCorrupt now s k = true →
        strDrop cfg.pfx.length k ∉ keys cfg (cleanupExpired cfg now s).2) := by
  have hndk : (getAllKeys cfg s).Nodup := by
    rw [getAllKeys]
    exact hnd.filter _
  have h := cleanFold now (getAllKeys cfg s) hndk s 0
  have hcount : (cleanupExpired cfg now s).1
      = (getAllKeys cfg s).countP (fun k => isExpiredOrCorrupt now s k) := by
    rw [cleanupExpired, h.1]
    exact Nat.zero_add _
  have hstore : ∀ k, getItem k (cleanupExpired cfg now s).2
      = if k ∈ getAllKeys cfg s ∧ isExpiredOrCorrupt now s k = true
        then none else getItem k s := fun k => h.2 k
  refine ⟨hcount, hstore, ?_⟩
  intro k hk hbad hmem
  have hkpfx : strStartsWith k cfg.pfx = true := by
    rw [getAllKeys] at hk
    exact (List.mem_filter.mp hk).2
  rw [keys] at hmem
  rcases List.mem_map.mp hmem with ⟨k2, hk2, hstrip⟩
  have hk2pfx : strStartsWith k2 cfg.pfx = true := by
    rw [getAllKeys] at hk2
    exact (List.mem_filter.mp hk2).2
  have hkk2 : k = k2 := strip_inj cfg.pfx k k2 hkpfx hk2pfx hstrip.symm
  subst hkk2
  have hgone : getItem k (cleanupExpired cfg now s).2 = none := by
    rw [hstore k, if_pos ⟨hk, hbad⟩]
  rw [getItem_eq_none_iff] at hgone
  rw [getAllKeys] at hk2
  exact hgone (List.mem_filter.mp hk2).1

/-- Store for the C6 witness: an expired record, a live record, a corrupt
record, and a record outside the namespace. -/
def sClean : Store :=
  [(getKey cfg0 keyTok, Item.record dExp),
   ("sv_b", Item.record dRec),
   ("sv_c", Item.corrupt),
   ("zz", Item.record dRec)]

/-- Witness for C6 at time 99: the expired and corrupt records are counted
and deleted, and keys() no longer lists the expired logical key. -/
theorem claim_C6_cleanup_expired_witness :
    (cleanupExpired cfg0 99 sClean).1
        = (getAllKeys cfg0 sClean).countP (fun k => isExpiredOrCorrupt 99 sClean k)
    ∧ getItem (getKey cfg0 keyTok) (cleanupExpired cfg0 99 sClean).2
        = (if getKey cfg0 keyTok ∈ getAllKeys cfg0 sClean
              ∧ isExpiredOrCorrupt 99 sClean (getKey cfg0 keyTok) = true
           then none else getItem (getKey cfg0 keyTok) sClean)
    ∧ strDrop cfg0.pfx.length (getKey cfg0 keyTok)
        ∉ keys cfg0 (cleanupExpired cfg0 99 sClean).2 := by
  have h := claim_C6_cleanup_expired cfg0 99 sClean (by decide)
  exact ⟨h.1, h.2.1 _, h.2.2 _ (by decide) (by decide)⟩

end SafeVault
